import Mathlib

/-!
Verification of the SanTOK/SOMA tokenization engine specification.

The hard core of the repository is a deterministic multi-strategy
tokenization and identity-assignment engine (strategy library, identity
assigner, digest composer, reconstruction engine, stream orchestrator)
plus a CLI orchestration boundary (`SOMACLI.tokenize` in `soma_cli.py`).
The engine itself lives in `src/core/core_tokenizer.py`, which is only
referenced (imported and tested) by the files available here, so its
functions are modelled from the specification text; the CLI boundary is
embedded directly from `soma_cli.py`.

A text is a list of Unicode codepoints (natural numbers); a token is a
list of codepoints (for the byte strategy, a single UTF-8 byte).
-/

namespace SanTok

/-- A text is a list of Unicode codepoints. -/
abbrev Text := List Nat

/-- A text is valid Unicode when every codepoint is below 0x110000. -/
def ValidText (t : Text) : Prop := ∀ c ∈ t, c < 1114112

instance : DecidablePred ValidText := fun t =>
  inferInstanceAs (Decidable (∀ c ∈ t, c < 1114112))

/-- Whitespace codepoints (space, tab, newline, carriage return, vertical
tab, form feed), mirroring Python's `str.isspace` on the ASCII range. -/
def isWhitespaceCp (c : Nat) : Bool :=
  c == 32 || c == 9 || c == 10 || c == 13 || c == 11 || c == 12

/-- Alphanumeric classification used by the word strategy: ASCII digits and
letters, and every codepoint ≥ 128 (non-ASCII text is treated as word
material). -/
def isAlnumCp (c : Nat) : Bool :=
  (48 ≤ c && c ≤ 57) || (65 ≤ c && c ≤ 90) || (97 ≤ c && c ≤ 122) || 128 ≤ c

/-- ASCII vowels, upper and lower case. -/
def isVowelCp (c : Nat) : Bool :=
  c == 97 || c == 101 || c == 105 || c == 111 || c == 117 ||
  c == 65 || c == 69 || c == 73 || c == 79 || c == 85

/-- ASCII consonants: letters that are not vowels. -/
def isConsonantCp (c : Nat) : Bool :=
  ((65 ≤ c && c ≤ 90) || (97 ≤ c && c ≤ 122)) && !isVowelCp c

theorem length_dropWhile_le (p : Nat → Bool) (l : List Nat) :
    (l.dropWhile p).length ≤ l.length := by
  induction l with
  | nil => simp
  | cons a as ih =>
    by_cases h : p a
    · simp only [List.dropWhile_cons, h, if_true, List.length_cons]
      omega
    · simp [List.dropWhile_cons, h]

/-- Modelled from the spec: grouping of a text into maximal runs of
codepoints sharing a classification value.  The `space` strategy groups by
whitespace vs non-whitespace (retaining whitespace runs as tokens so exact
spacing is preserved), and `subword_syllable` groups by vowel/consonant
cluster boundaries. -/
def groupByClass (f : Nat → Nat) : Text → List Text
  | [] => []
  | c :: cs =>
    (c :: cs.takeWhile (fun d => f d == f c)) ::
      groupByClass f (cs.dropWhile (fun d => f d == f c))
termination_by l => l.length
decreasing_by
  simp only [List.length_cons]
  have := length_dropWhile_le (fun d => f d == f c) cs
  omega

theorem flatten_groupByClass (f : Nat → Nat) (l : Text) :
    (groupByClass f l).flatten = l := by
  have H : ∀ n (l : Text), l.length ≤ n → (groupByClass f l).flatten = l := by
    intro n
    induction n with
    | zero =>
      intro l hl
      have : l = [] := List.eq_nil_of_length_eq_zero (Nat.le_zero.mp hl)
      subst this; simp [groupByClass]
    | succ n ih =>
      intro l hl
      cases l with
      | nil => simp [groupByClass]
      | cons c cs =>
        rw [groupByClass]
        have hlen : (cs.dropWhile (fun d => f d == f c)).length ≤ n := by
          have := length_dropWhile_le (fun d => f d == f c) cs
          simp only [List.length_cons] at hl
          omega
        simp only [List.flatten_cons]
        rw [ih _ hlen, List.cons_append, List.takeWhile_append_dropWhile]
  exact H l.length l le_rfl

/-- Modelled from the spec: `space` strategy, splitting the text into
maximal runs of whitespace and non-whitespace codepoints; whitespace runs
are themselves emitted as tokens so that concatenation reconstructs the
exact original spacing (`tokenize_space` in `core_tokenizer`). -/
def tokenize_space (t : Text) : List Text :=
  groupByClass (fun c => if isWhitespaceCp c then 0 else 1) t

/-- Modelled from the spec: `word` strategy — a maximal run of alphanumeric
codepoints is a word token; any other codepoint forms a run-of-identical
token; reconstruction is concatenation (`tokenize_word`). -/
def tokenize_word : Text → List Text
  | [] => []
  | c :: cs =>
    if isAlnumCp c then
      (c :: cs.takeWhile isAlnumCp) :: tokenize_word (cs.dropWhile isAlnumCp)
    else
      (c :: cs.takeWhile (fun d => d == c)) ::
        tokenize_word (cs.dropWhile (fun d => d == c))
termination_by l => l.length
decreasing_by
  · simp only [List.length_cons]
    have := length_dropWhile_le isAlnumCp cs
    omega
  · simp only [List.length_cons]
    have := length_dropWhile_le (fun d => d == c) cs
    omega

/-- Modelled from the spec: `char` strategy — one token per Unicode
codepoint, combining marks included (`tokenize_char`). -/
def tokenize_char (t : Text) : List Text := t.map (fun c => [c])

/-- Sentence-level delimiters of the grammar strategy: `.`, `!`, `?` and
whitespace. -/
def isGrammarDelim (c : Nat) : Bool :=
  c == 46 || c == 33 || c == 63 || isWhitespaceCp c

/-- Modelled from the spec: `grammar` strategy — splits at `.`, `!`, `?`
and whitespace, each delimiter retained as its own token; reconstruction is
concatenation (`tokenize_grammar`). -/
def tokenize_grammar : Text → List Text
  | [] => []
  | c :: cs =>
    if isGrammarDelim c then [c] :: tokenize_grammar cs
    else
      (c :: cs.takeWhile (fun d => !isGrammarDelim d)) ::
        tokenize_grammar (cs.dropWhile (fun d => !isGrammarDelim d))
termination_by l => l.length
decreasing_by
  · simp
  · simp only [List.length_cons]
    have := length_dropWhile_le (fun d => !isGrammarDelim d) cs
    omega

/-- Modelled from the spec: fixed-length chunking of a text into chunks of
`k` codepoints (the last chunk may be shorter), the heart of the
`subword_fixed` strategy with default chunk length 3. -/
def chunksOf (k : Nat) : Text → List Text
  | [] => []
  | c :: cs => (c :: cs.take (k - 1)) :: chunksOf k (cs.drop (k - 1))
termination_by l => l.length
decreasing_by
  simp only [List.length_cons, List.length_drop]
  omega

theorem flatten_chunksOf (k : Nat) (l : Text) :
    (chunksOf k l).flatten = l := by
  have H : ∀ n (l : Text), l.length ≤ n → (chunksOf k l).flatten = l := by
    intro n
    induction n with
    | zero =>
      intro l hl
      have : l = [] := List.eq_nil_of_length_eq_zero (Nat.le_zero.mp hl)
      subst this; simp [chunksOf]
    | succ n ih =>
      intro l hl
      cases l with
      | nil => simp [chunksOf]
      | cons c cs =>
        rw [chunksOf]
        have hlen : (cs.drop (k - 1)).length ≤ n := by
          simp only [List.length_cons] at hl
          simp only [List.length_drop]
          omega
        simp only [List.flatten_cons]
        rw [ih _ hlen, List.cons_append, List.take_append_drop]
  exact H l.length l le_rfl

/-- Modelled from the spec: `subword_fixed` strategy — chunks of 3
codepoints, last chunk may be shorter (`tokenize_subword` with
`strategy="fixed"`, `chunk_len=3`). -/
def tokenize_subword_fixed (t : Text) : List Text := chunksOf 3 t

/-- Modelled from the spec: merge every adjacent occurrence of the token
pair `(a, b)` into the single token `a ++ b`, one BPE merge round. -/
def mergePair (a b : Text) : List Text → List Text
  | x :: y :: rest =>
    if x = a ∧ y = b then (a ++ b) :: mergePair a b rest
    else x :: mergePair a b (y :: rest)
  | l => l

theorem flatten_mergePair (a b : Text) (l : List Text) :
    (mergePair a b l).flatten = l.flatten := by
  have H : ∀ n (l : List Text), l.length ≤ n →
      (mergePair a b l).flatten = l.flatten := by
    intro n
    induction n with
    | zero =>
      intro l hl
      have : l = [] := List.eq_nil_of_length_eq_zero (Nat.le_zero.mp hl)
      subst this; simp [mergePair]
    | succ n ih =>
      intro l hl
      match l with
      | [] => simp [mergePair]
      | [x] => simp [mergePair]
      | x :: y :: rest =>
        simp only [List.length_cons] at hl
        by_cases h : x = a ∧ y = b
        · rw [mergePair, if_pos h]
          simp only [List.flatten_cons]
          rw [ih rest (by omega), h.1, h.2, List.append_assoc]
        · rw [mergePair, if_neg h]
          simp only [List.flatten_cons]
          rw [ih (y :: rest) (by simp; omega)]
          simp [List.flatten_cons]
  exact H l.length l le_rfl

/-- Number of adjacent occurrences of the pair `(a, b)` in a token list. -/
def pairCount (a b : Text) : List Text → Nat
  | x :: y :: rest => (if x = a ∧ y = b then 1 else 0) + pairCount a b (y :: rest)
  | _ => 0

/-- All adjacent token pairs of a token list, in order. -/
def adjacentPairs : List Text → List (Text × Text)
  | x :: y :: rest => (x, y) :: adjacentPairs (y :: rest)
  | _ => []

/-- Modelled from the spec: choose the adjacent pair with the highest
occurrence count in the running frequency table built from the same text;
only pairs occurring at least twice qualify for a BPE merge. -/
def bestPair (toks : List Text) : Option (Text × Text) :=
  (adjacentPairs toks).foldl
    (fun acc p =>
      match acc with
      | none => if 2 ≤ pairCount p.1 p.2 toks then some p else none
      | some q =>
        if pairCount q.1 q.2 toks < pairCount p.1 p.2 toks then some p else acc)
    none

/-- Modelled from the spec: repeated greedy merge of the most frequent
adjacent pair, fuelled by the text length. -/
def bpeLoop : Nat → List Text → List Text
  | 0, toks => toks
  | Nat.succ f, toks =>
    match bestPair toks with
    | none => toks
    | some p => bpeLoop f (mergePair p.1 p.2 toks)

theorem flatten_bpeLoop (f : Nat) (toks : List Text) :
    (bpeLoop f toks).flatten = toks.flatten := by
  induction f generalizing toks with
  | zero => rfl
  | succ f ih =>
    rw [bpeLoop]
    cases bestPair toks with
    | none => rfl
    | some p => rw [ih, flatten_mergePair]

/-- Modelled from the spec: `subword_bpe` strategy — byte-pair-encoding
style agglomeration restricted to the single input text: start from
codepoint tokens and repeatedly merge the most frequent adjacent pair
(`tokenize_subword` with `strategy="bpe"`). -/
def tokenize_subword_bpe (t : Text) : List Text :=
  bpeLoop t.length (tokenize_char t)

/-- Modelled from the spec: `subword_syllable` strategy — splits at
vowel/consonant cluster boundaries as a heuristic syllable approximation
(`tokenize_subword` with `strategy="syllable"`). -/
def tokenize_subword_syllable (t : Text) : List Text :=
  groupByClass (fun c => if isVowelCp c then 0 else if isConsonantCp c then 1 else 2) t

/-- Occurrence count of a chunk in the running table of produced chunks. -/
def countTok (table : List Text) (x : Text) : Nat :=
  table.countP (fun y => y == x)

/-- Modelled from the spec: greedy frequency-maximizing choice of the next
chunk length (a value `k` so the chunk is `take (k+1)`, at most 3
codepoints), favouring prefixes seen more often in the running table. -/
def pickLen (table : List Text) (l : Text) : Nat :=
  (List.range 3).foldl
    (fun best k =>
      if countTok table (l.take (best + 1)) < countTok table (l.take (k + 1))
      then k else best)
    0

/-- Modelled from the spec: greedy frequency-maximizing split of a text,
emitting one nonempty chunk per step and recording it in the running
frequency table, fuelled by the text length. -/
def freqSplit : Nat → List Text → Text → List Text
  | _, _, [] => []
  | 0, _, l => [l]
  | Nat.succ f, table, c :: cs =>
    let k := pickLen table (c :: cs)
    (c :: cs.take k) :: freqSplit f ((c :: cs.take k) :: table) (cs.drop k)

theorem flatten_freqSplit (f : Nat) (table : List Text) (l : Text) :
    (freqSplit f table l).flatten = l := by
  induction f generalizing table l with
  | zero =>
    cases l with
    | nil => rfl
    | cons c cs => simp [freqSplit]
  | succ f ih =>
    cases l with
    | nil => rfl
    | cons c cs =>
      rw [freqSplit]
      simp only [List.flatten_cons]
      rw [ih, List.cons_append, List.take_append_drop]

/-- Modelled from the spec: `subword_frequency` strategy — chunks chosen to
favour previously-seen-more-frequent substrings within the same text, a
greedy frequency-maximizing split (`tokenize_subword` with
`strategy="frequency"`). -/
def tokenize_subword_frequency (t : Text) : List Text :=
  freqSplit t.length [] t

/-- UTF-8 encoding of a single Unicode codepoint as its byte sequence. -/
def utf8EncodeChar (c : Nat) : List Nat :=
  if c < 128 then [c]
  else if c < 2048 then [192 + c / 64, 128 + c % 64]
  else if c < 65536 then
    [224 + c / 4096, 128 + c / 64 % 64, 128 + c % 64]
  else
    [240 + c / 262144, 128 + c / 4096 % 64, 128 + c / 64 % 64, 128 + c % 64]

/-- Number of bytes of the UTF-8 sequence introduced by leading byte `b`. -/
def charLen (b : Nat) : Nat :=
  if b < 128 then 1 else if b < 224 then 2 else if b < 240 then 3 else 4

/-- Codepoint encoded by leading byte `b` followed by the given
continuation bytes (ill-formed short sequences are passed through, a case
never reached on the encoder's output for valid codepoints). -/
def decodeVal (b : Nat) : List Nat → Nat
  | [] => b
  | [b1] => (b - 192) * 64 + (b1 - 128)
  | [b1, b2] => (b - 224) * 4096 + (b1 - 128) * 64 + (b2 - 128)
  | b1 :: b2 :: b3 :: _ =>
    (b - 240) * 262144 + (b1 - 128) * 4096 + (b2 - 128) * 64 + (b3 - 128)

/-- UTF-8 decoding of a byte sequence back to codepoints (total on all
inputs). -/
def utf8Decode : List Nat → Text
  | [] => []
  | b :: rest =>
    decodeVal b (rest.take (charLen b - 1)) :: utf8Decode (rest.drop (charLen b - 1))
termination_by l => l.length
decreasing_by
  simp only [List.length_cons, List.length_drop]
  omega

theorem utf8Decode_nil : utf8Decode [] = [] := by
  simp [utf8Decode]

theorem utf8Decode_cons (b : Nat) (rest : List Nat) :
    utf8Decode (b :: rest) =
      decodeVal b (rest.take (charLen b - 1)) ::
        utf8Decode (rest.drop (charLen b - 1)) := by
  rw [utf8Decode]

theorem utf8Decode_cons1 (b : Nat) (rest : List Nat) (h : charLen b = 1) :
    utf8Decode (b :: rest) = decodeVal b [] :: utf8Decode rest := by
  rw [utf8Decode_cons, h]; simp

theorem utf8Decode_cons2 (b x : Nat) (rest : List Nat) (h : charLen b = 2) :
    utf8Decode (b :: x :: rest) = decodeVal b [x] :: utf8Decode rest := by
  rw [utf8Decode_cons, h]; simp

theorem utf8Decode_cons3 (b x y : Nat) (rest : List Nat) (h : charLen b = 3) :
    utf8Decode (b :: x :: y :: rest) = decodeVal b [x, y] :: utf8Decode rest := by
  rw [utf8Decode_cons, h]; simp

theorem utf8Decode_cons4 (b x y z : Nat) (rest : List Nat) (h : charLen b = 4) :
    utf8Decode (b :: x :: y :: z :: rest) =
      decodeVal b [x, y, z] :: utf8Decode rest := by
  rw [utf8Decode_cons, h]; simp

/-- Modelled from the spec: `byte` strategy — one token per raw byte of the
UTF-8 encoding of the text (`tokenize_bytes`). -/
def tokenize_bytes (t : Text) : List Text :=
  (t.flatMap utf8EncodeChar).map (fun b => [b])

/-- The nine fixed tokenization strategies. -/
inductive Strategy where
  | space
  | word
  | char
  | grammar
  | subword_fixed
  | subword_bpe
  | subword_syllable
  | subword_frequency
  | byte
deriving DecidableEq, Repr

/-- Modelled from the spec: the strategy library dispatch — the
text→token-sequence function of each of the nine strategies. -/
def tokenize : Strategy → Text → List Text
  | .space => tokenize_space
  | .word => tokenize_word
  | .char => tokenize_char
  | .grammar => tokenize_grammar
  | .subword_fixed => tokenize_subword_fixed
  | .subword_bpe => tokenize_subword_bpe
  | .subword_syllable => tokenize_subword_syllable
  | .subword_frequency => tokenize_subword_frequency
  | .byte => tokenize_bytes

/-- Modelled from the spec: the per-strategy inverse
(`reconstruct_from_tokens`) — concatenation of the token texts for every
strategy except `byte`, which decodes the concatenated byte sequence back
to the original string. -/
def detokenize : Strategy → List Text → Text
  | .byte => fun toks => utf8Decode toks.flatten
  | _ => fun toks => toks.flatten


theorem flatten_tokenize_word (l : Text) : (tokenize_word l).flatten = l := by
  have H : ∀ n (l : Text), l.length ≤ n → (tokenize_word l).flatten = l := by
    intro n
    induction n with
    | zero =>
      intro l hl
      have : l = [] := List.eq_nil_of_length_eq_zero (Nat.le_zero.mp hl)
      subst this; simp [tokenize_word]
    | succ n ih =>
      intro l hl
      cases l with
      | nil => simp [tokenize_word]
      | cons c cs =>
        simp only [List.length_cons] at hl
        rw [tokenize_word]
        by_cases h : isAlnumCp c
        · rw [if_pos h]
          have hlen : (cs.dropWhile isAlnumCp).length ≤ n := by
            have := length_dropWhile_le isAlnumCp cs
            omega
          simp only [List.flatten_cons]
          rw [ih _ hlen, List.cons_append, List.takeWhile_append_dropWhile]
        · rw [if_neg h]
          have hlen : (cs.dropWhile (fun d => d == c)).length ≤ n := by
            have := length_dropWhile_le (fun d => d == c) cs
            omega
          simp only [List.flatten_cons]
          rw [ih _ hlen, List.cons_append, List.takeWhile_append_dropWhile]
  exact H l.length l le_rfl

theorem flatten_tokenize_grammar (l : Text) : (tokenize_grammar l).flatten = l := by
  have H : ∀ n (l : Text), l.length ≤ n → (tokenize_grammar l).flatten = l := by
    intro n
    induction n with
    | zero =>
      intro l hl
      have : l = [] := List.eq_nil_of_length_eq_zero (Nat.le_zero.mp hl)
      subst this; simp [tokenize_grammar]
    | succ n ih =>
      intro l hl
      cases l with
      | nil => simp [tokenize_grammar]
      | cons c cs =>
        simp only [List.length_cons] at hl
        rw [tokenize_grammar]
        by_cases h : isGrammarDelim c
        · rw [if_pos h]
          simp only [List.flatten_cons, List.singleton_append]
          rw [ih _ (by omega)]
        · rw [if_neg h]
          have hlen : (cs.dropWhile (fun d => !isGrammarDelim d)).length ≤ n := by
            have := length_dropWhile_le (fun d => !isGrammarDelim d) cs
            omega
          simp only [List.flatten_cons]
          rw [ih _ hlen, List.cons_append, List.takeWhile_append_dropWhile]
  exact H l.length l le_rfl

theorem flatten_tokenize_char (l : Text) : (tokenize_char l).flatten = l := by
  induction l with
  | nil => rfl
  | cons c cs ih =>
    simp only [tokenize_char] at ih
    simp only [tokenize_char, List.map_cons, List.flatten_cons,
      List.singleton_append, ih]

theorem utf8Decode_encodeChar (c : Nat) (hc : c < 1114112) (rest : List Nat) :
    utf8Decode (utf8EncodeChar c ++ rest) = c :: utf8Decode rest := by
  unfold utf8EncodeChar
  by_cases h1 : c < 128
  · rw [if_pos h1]
    simp only [List.cons_append, List.nil_append]
    rw [utf8Decode_cons1 _ _ (by simp [charLen, h1])]
    simp [decodeVal]
  · rw [if_neg h1]
    by_cases h2 : c < 2048
    · rw [if_pos h2]
      simp only [List.cons_append, List.nil_append]
      have hcl : charLen (192 + c / 64) = 2 := by
        simp only [charLen]
        rw [if_neg (by omega), if_pos (by omega)]
      rw [utf8Decode_cons2 _ _ _ hcl]
      simp only [decodeVal]
      rw [show (192 + c / 64 - 192) * 64 + (128 + c % 64 - 128) = c by omega]
    · rw [if_neg h2]
      by_cases h3 : c < 65536
      · rw [if_pos h3]
        simp only [List.cons_append, List.nil_append]
        have hcl : charLen (224 + c / 4096) = 3 := by
          simp only [charLen]
          rw [if_neg (by omega), if_neg (by omega), if_pos (by omega)]
        rw [utf8Decode_cons3 _ _ _ _ hcl]
        simp only [decodeVal]
        rw [show (224 + c / 4096 - 224) * 4096 + (128 + c / 64 % 64 - 128) * 64 +
          (128 + c % 64 - 128) = c by omega]
      · rw [if_neg h3]
        simp only [List.cons_append, List.nil_append]
        have hcl : charLen (240 + c / 262144) = 4 := by
          simp only [charLen]
          rw [if_neg (by omega), if_neg (by omega), if_neg (by omega)]
        rw [utf8Decode_cons4 _ _ _ _ _ hcl]
        simp only [decodeVal]
        rw [show (240 + c / 262144 - 240) * 262144 + (128 + c / 4096 % 64 - 128) * 4096 +
          (128 + c / 64 % 64 - 128) * 64 + (128 + c % 64 - 128) = c by omega]

theorem utf8Decode_encode (t : Text) (h : ValidText t) :
    utf8Decode (t.flatMap utf8EncodeChar) = t := by
  induction t with
  | nil => simp [utf8Decode_nil]
  | cons c cs ih =>
    have hc : c < 1114112 := h c (List.mem_cons_self c cs)
    have hcs : ValidText cs := fun d hd => h d (List.mem_cons_of_mem c hd)
    rw [List.flatMap_cons, utf8Decode_encodeChar c hc, ih hcs]

/-- C1: for every one of the nine strategies and every Unicode text
(every list of codepoints below 0x110000, covering the empty text,
pure-whitespace texts, combining-mark-only texts and multi-codepoint
grapheme clusters), detokenizing the token list produced by tokenizing the
text yields exactly the original text. -/
theorem roundtrip_all_strategies (S : Strategy) (T : Text) (hT : ValidText T) :
    detokenize S (tokenize S T) = T := by
  cases S with
  | space =>
    simpa only [tokenize, detokenize, tokenize_space] using
      flatten_groupByClass (fun c => if isWhitespaceCp c then 0 else 1) T
  | word =>
    simpa only [tokenize, detokenize] using flatten_tokenize_word T
  | char =>
    simpa only [tokenize, detokenize] using flatten_tokenize_char T
  | grammar =>
    simpa only [tokenize, detokenize] using flatten_tokenize_grammar T
  | subword_fixed =>
    simpa only [tokenize, detokenize, tokenize_subword_fixed] using
      flatten_chunksOf 3 T
  | subword_bpe =>
    simp only [tokenize, detokenize, tokenize_subword_bpe]
    rw [flatten_bpeLoop, flatten_tokenize_char]
  | subword_syllable =>
    simpa only [tokenize, detokenize, tokenize_subword_syllable] using
      flatten_groupByClass
        (fun c => if isVowelCp c then 0 else if isConsonantCp c then 1 else 2) T
  | subword_frequency =>
    simpa only [tokenize, detokenize, tokenize_subword_frequency] using
      flatten_freqSplit T.length [] T
  | byte =>
    simp only [tokenize, detokenize, tokenize_bytes]
    have : ((T.flatMap utf8EncodeChar).map fun b => [b]).flatten =
        T.flatMap utf8EncodeChar := flatten_tokenize_char _
    rw [this, utf8Decode_encode T hT]

/-- Witness for C1: the round-trip theorem applied to the byte strategy at
the concrete text "Hi 😀" (codepoints 72, 105, 32, 128512). -/
theorem roundtrip_all_strategies_witness :
    ValidText [72, 105, 32, 128512] ∧
      detokenize Strategy.byte (tokenize Strategy.byte [72, 105, 32, 128512]) =
        [72, 105, 32, 128512] :=
  ⟨by decide, roundtrip_all_strategies Strategy.byte _ (by decide)⟩


/-- Modelled from the spec: fixed deterministic rolling polynomial hash
over the codepoints of a text, reduced modulo 2^32 — the stable,
machine-independent hash the identity assigner builds on. -/
def textHash (t : Text) : Nat :=
  t.foldl (fun a c => (a * 31 + c) % 4294967296) 7

/-- Modelled from the spec: `_content_id` — a pure hash of the token text
alone, independent of position and seed. -/
def _content_id (t : Text) : Nat := textHash t

/-- Modelled from the spec: `uid(seed, text, index)` — a deterministic
mixing of seed, text and index; the seed occupies a disjoint high part so
that changing the seed changes every uid, as §3 requires. -/
def mkuid (seed : Int) (t : Text) (i : Nat) : Int :=
  seed * 4294967296 + (((textHash t * 1000003 + i) % 4294967296 : Nat) : Int)

/-- A token record of a TokenStream: exact token text, zero-based index,
uid, content identifier and neighbor uid links. -/
structure TokenRec where
  text : Text
  index : Nat
  uid : Int
  content_id : Nat
  prev_uid : Option Int
  next_uid : Option Int
deriving DecidableEq, Repr

/-- Modelled from the spec: the identity assigner's single pass giving each
raw token its index, uid and content id, starting from a global offset. -/
def assign_uids_from (seed : Int) : Nat → List Text → List TokenRec
  | _, [] => []
  | i, t :: ts =>
    ⟨t, i, mkuid seed t i, _content_id t, none, none⟩ ::
      assign_uids_from seed (i + 1) ts

/-- Modelled from the spec: `assign_uids` — identity assignment over an
ordered token list with a seed, starting at global offset 0. -/
def assign_uids (toks : List Text) (seed : Int) : List TokenRec :=
  assign_uids_from seed 0 toks

/-- Neighbor update of one record: prev/next uid looked up by index in the
underlying record list; boundary records get none. -/
def updNeighbors (recs : List TokenRec) (i : Nat) (r : TokenRec) : TokenRec :=
  { r with
    prev_uid := if i = 0 then none else (recs[i - 1]?).map TokenRec.uid
    next_uid := (recs[i + 1]?).map TokenRec.uid }

/-- Map a function over a list together with the running index. -/
def mapIdxFrom (f : Nat → TokenRec → TokenRec) : Nat → List TokenRec → List TokenRec
  | _, [] => []
  | i, r :: rs => f i r :: mapIdxFrom f (i + 1) rs

/-- Modelled from the spec: `neighbor_uids` — prev_uid/next_uid become
simple lookups of the neighboring record's uid by index. -/
def neighbor_uids (recs : List TokenRec) : List TokenRec :=
  mapIdxFrom (updNeighbors recs) 0 recs

/-- Modelled from the spec: the stream orchestrator's per-strategy pass —
tokenize, assign identities, link neighbors. -/
def pipeline (S : Strategy) (T : Text) (seed : Int) : List TokenRec :=
  neighbor_uids (assign_uids (tokenize S T) seed)

theorem getElem?_mapIdxFrom (f : Nat → TokenRec → TokenRec) (i : Nat)
    (l : List TokenRec) (j : Nat) :
    (mapIdxFrom f i l)[j]? = (l[j]?).map (f (i + j)) := by
  induction l generalizing i j with
  | nil => simp [mapIdxFrom]
  | cons r rs ih =>
    cases j with
    | zero => simp [mapIdxFrom]
    | succ j =>
      simp only [mapIdxFrom, List.getElem?_cons_succ]
      rw [ih]
      have harith : i + 1 + j = i + (j + 1) := by omega
      rw [harith]

theorem mem_mapIdxFrom (f : Nat → TokenRec → TokenRec) (i : Nat)
    (l : List TokenRec) (r : TokenRec) (h : r ∈ mapIdxFrom f i l) :
    ∃ j r0, r0 ∈ l ∧ r = f j r0 := by
  induction l generalizing i with
  | nil => simp [mapIdxFrom] at h
  | cons x xs ih =>
    simp only [mapIdxFrom, List.mem_cons] at h
    rcases h with h | h
    · exact ⟨i, x, List.mem_cons_self x xs, h⟩
    · obtain ⟨j, r0, hr0, hr⟩ := ih (i + 1) h
      exact ⟨j, r0, List.mem_cons_of_mem x hr0, hr⟩

theorem content_id_assign (seed : Int) (i : Nat) (toks : List Text)
    (r : TokenRec) (h : r ∈ assign_uids_from seed i toks) :
    r.content_id = _content_id r.text := by
  induction toks generalizing i with
  | nil => simp [assign_uids_from] at h
  | cons t ts ih =>
    simp only [assign_uids_from, List.mem_cons] at h
    rcases h with h | h
    · subst h; rfl
    · exact ih (i + 1) h

theorem content_id_pipeline (S : Strategy) (T : Text) (s : Int)
    (r : TokenRec) (h : r ∈ pipeline S T s) :
    r.content_id = _content_id r.text := by
  obtain ⟨j, r0, hr0, rfl⟩ := mem_mapIdxFrom _ 0 _ r h
  have := content_id_assign s 0 (tokenize S T) r0 hr0
  simpa [updNeighbors] using this

/-- C3: `content_id` is a function of the token text alone — any two
records produced by the pipeline, for any strategies, texts and seeds,
have equal content_id whenever their texts are equal. -/
theorem content_id_stable (S1 S2 : Strategy) (T1 T2 : Text) (s1 s2 : Int)
    (r1 r2 : TokenRec) (h1 : r1 ∈ pipeline S1 T1 s1)
    (h2 : r2 ∈ pipeline S2 T2 s2) (ht : r1.text = r2.text) :
    r1.content_id = r2.content_id := by
  rw [content_id_pipeline S1 T1 s1 r1 h1, content_id_pipeline S2 T2 s2 r2 h2, ht]

/-- Witness for C3: two records with the identical text "a", produced from
different texts, strategies, seeds and positions, share their content_id. -/
theorem content_id_stable_witness :
    ∃ r1 r2, r1 ∈ pipeline Strategy.char [97, 98, 97] 1 ∧
      r2 ∈ pipeline Strategy.char [99, 97] 2 ∧ r1.text = r2.text ∧
      r1.content_id = r2.content_id := by
  refine ⟨(pipeline Strategy.char [97, 98, 97] 1).get ⟨2, by decide⟩,
    (pipeline Strategy.char [99, 97] 2).get ⟨1, by decide⟩, ?_, ?_, ?_, ?_⟩
  · exact List.get_mem _ _ _
  · exact List.get_mem _ _ _
  · decide
  · exact content_id_stable Strategy.char Strategy.char [97, 98, 97] [99, 97] 1 2
      _ _ (List.get_mem _ _ _) (List.get_mem _ _ _) (by decide)


/-- Sum of the decimal digits of a natural number. -/
def digitSum (n : Nat) : Nat :=
  if n < 10 then n else n % 10 + digitSum (n / 10)
termination_by n
decreasing_by omega

theorem digitSum_le (n : Nat) : digitSum n ≤ n := by
  induction n using Nat.strong_induction_on with
  | _ n ih =>
    rw [digitSum]
    by_cases h : n < 10
    · simp [h]
    · rw [if_neg h]
      have := ih (n / 10) (by omega)
      omega

theorem digitSum_lt (n : Nat) (h : 10 ≤ n) : digitSum n < n := by
  rw [digitSum, if_neg (by omega)]
  have := digitSum_le (n / 10)
  omega

/-- Modelled from the spec: repeatedly fold a sum to a single digit by
summing its own decimal digits until one digit remains, the digital-root
style reduction of the digest composer. -/
def digitalRoot (n : Nat) : Nat :=
  if n < 10 then n else digitalRoot (digitSum n)
termination_by n
decreasing_by exact digitSum_lt n (by omega)

theorem digitalRoot_lt (n : Nat) : digitalRoot n < 10 := by
  induction n using Nat.strong_induction_on with
  | _ n ih =>
    rw [digitalRoot]
    by_cases h : n < 10
    · rw [if_pos h]
      exact h
    · rw [if_neg h]
      exact ih (digitSum n) (digitSum_lt n (by omega))

/-- Modelled from the spec: the fixed character→value mapping of the digest
composer, read-only after initialization. -/
def charVal (c : Nat) : Nat := c % 9 + 1

/-- Modelled from the spec: `combined_digit(text, embedding_bit)` — sum the
fixed per-codepoint values, fold the sum to one digit digital-root style,
and add 1 (mod 10) when the embedding bit is set.  A pure function of the
text and the bit alone. -/
def combined_digit (t : Text) (bit : Bool) : Nat :=
  let r := digitalRoot (t.foldl (fun a c => a + charVal c) 0)
  match bit with
  | true => (r + 1) % 10
  | false => r

/-- Sentinel value used for a missing neighbor uid. -/
def sentinel : Option Int → Int
  | none => -1
  | some u => u

/-- Modelled from the spec: `compose_backend_number` — one large integer
deterministically combining the content-derived value, index, uid, neighbor
uids (sentinel −1 when none) and the embedding bit through fixed positional
weights. -/
def compose_backend_number (t : Text) (i : Nat) (uid : Int)
    (prev next : Option Int) (bit : Bool) : Int :=
  (textHash t : Int) * 1000003 + (i : Int) * 10007 + uid * 97 +
    sentinel prev * 31 + sentinel next * 7 + (if bit then 1 else 0)

/-- Modelled from the spec: `backend_scaled = backend_number mod K` with
the fixed constant K = 100000. -/
def backend_scaled (n : Int) : Int := n % 100000

/-- The digest pair sequence of a stream: frontend digit and backend number
per record, recomputed on demand from the records. -/
def streamDigests (recs : List TokenRec) (bit : Bool) : List (Nat × Int) :=
  recs.map (fun r =>
    (combined_digit r.text bit,
      compose_backend_number r.text r.index r.uid r.prev_uid r.next_uid bit))

theorem map_text_assign (seed : Int) (i : Nat) (toks : List Text) :
    (assign_uids_from seed i toks).map TokenRec.text = toks := by
  induction toks generalizing i with
  | nil => rfl
  | cons t ts ih => simp only [assign_uids_from, List.map_cons, ih]

theorem map_text_mapIdxFrom (base : List TokenRec) (i : Nat)
    (l : List TokenRec) :
    (mapIdxFrom (updNeighbors base) i l).map TokenRec.text =
      l.map TokenRec.text := by
  induction l generalizing i with
  | nil => rfl
  | cons r rs ih =>
    simp only [mapIdxFrom, List.map_cons, ih]
    rfl

theorem map_text_pipeline (S : Strategy) (T : Text) (s : Int) :
    (pipeline S T s).map TokenRec.text = tokenize S T := by
  unfold pipeline neighbor_uids assign_uids
  rw [map_text_mapIdxFrom, map_text_assign]

/-- C8: the frontend digit is a pure function of the token text and the
embedding bit alone — the digit sequence of any pipeline run equals the
per-token-text digits, independent of seed, index, uid and neighbors — and
it is always a single decimal digit (at most 9). -/
theorem frontend_digit_pure_and_single :
    (∀ (S : Strategy) (T : Text) (s : Int) (bit : Bool),
      (pipeline S T s).map (fun r => combined_digit r.text bit) =
        (tokenize S T).map (fun t => combined_digit t bit)) ∧
    (∀ (t : Text) (bit : Bool), combined_digit t bit ≤ 9) := by
  constructor
  · intro S T s bit
    have h1 : (pipeline S T s).map (fun r => combined_digit r.text bit) =
        ((pipeline S T s).map TokenRec.text).map (fun t => combined_digit t bit) := by
      rw [List.map_map]
      rfl
    rw [h1, map_text_pipeline]
  · intro t bit
    have hroot := digitalRoot_lt (t.foldl (fun a c => a + charVal c) 0)
    cases bit
    · show digitalRoot (t.foldl (fun a c => a + charVal c) 0) ≤ 9
      omega
    · show (digitalRoot (t.foldl (fun a c => a + charVal c) 0) + 1) % 10 ≤ 9
      omega

/-- C2: determinism — for a fixed input triple (text, seed, embedding bit)
and strategy, any two runs of the pipeline produce identical uid,
content_id, frontend digit and backend number sequences. -/
theorem pipeline_deterministic (S : Strategy) (T T2 : Text) (s s2 : Int)
    (b b2 : Bool) (hT : T = T2) (hs : s = s2) (hb : b = b2) :
    (pipeline S T s).map TokenRec.uid = (pipeline S T2 s2).map TokenRec.uid ∧
    (pipeline S T s).map TokenRec.content_id =
      (pipeline S T2 s2).map TokenRec.content_id ∧
    streamDigests (pipeline S T s) b = streamDigests (pipeline S T2 s2) b2 := by
  subst hT; subst hs; subst hb
  exact ⟨rfl, rfl, rfl⟩

/-- Witness for C2: two identically-parameterized runs on the text "ab"
with seed 42 agree on all identity and digest sequences. -/
theorem pipeline_deterministic_witness :
    (pipeline Strategy.word [97, 98] 42).map TokenRec.uid =
      (pipeline Strategy.word [97, 98] 42).map TokenRec.uid ∧
    (pipeline Strategy.word [97, 98] 42).map TokenRec.content_id =
      (pipeline Strategy.word [97, 98] 42).map TokenRec.content_id ∧
    streamDigests (pipeline Strategy.word [97, 98] 42) false =
      streamDigests (pipeline Strategy.word [97, 98] 42) false :=
  pipeline_deterministic Strategy.word [97, 98] [97, 98] 42 42 false false
    rfl rfl rfl


theorem getElem?_pipeline (S : Strategy) (T : Text) (s : Int) (j : Nat) :
    (pipeline S T s)[j]? =
      ((assign_uids (tokenize S T) s)[j]?).map
        (updNeighbors (assign_uids (tokenize S T) s) j) := by
  unfold pipeline neighbor_uids
  rw [getElem?_mapIdxFrom]
  simp

theorem uid_updNeighbors (base : List TokenRec) (j : Nat) (r : TokenRec) :
    (updNeighbors base j r).uid = r.uid := rfl

theorem prev_updNeighbors (base : List TokenRec) (j : Nat) (r : TokenRec) :
    (updNeighbors base j r).prev_uid =
      if j = 0 then none else (base[j - 1]?).map TokenRec.uid := rfl

theorem next_updNeighbors (base : List TokenRec) (j : Nat) (r : TokenRec) :
    (updNeighbors base j r).next_uid = (base[j + 1]?).map TokenRec.uid := rfl

/-- C4: in every stream produced by the pipeline, the record at index 0 has
prev_uid none; any two records at consecutive indices mirror each other's
uid through next_uid/prev_uid; and the record at the last index has
next_uid none. -/
theorem neighbor_consistency (S : Strategy) (T : Text) (s : Int) :
    (∀ r, (pipeline S T s)[0]? = some r → r.prev_uid = none) ∧
    (∀ i r r2, (pipeline S T s)[i]? = some r →
      (pipeline S T s)[i + 1]? = some r2 →
      r.next_uid = some r2.uid ∧ r2.prev_uid = some r.uid) ∧
    (∀ i r, (pipeline S T s)[i]? = some r →
      (pipeline S T s)[i + 1]? = none → r.next_uid = none) := by
  refine ⟨?_, ?_, ?_⟩
  · intro r h
    rw [getElem?_pipeline] at h
    obtain ⟨r0, hr0, hupd⟩ := Option.map_eq_some'.mp h
    subst hupd
    simp [updNeighbors]
  · intro i r r2 h h2
    rw [getElem?_pipeline] at h h2
    obtain ⟨r0, hr0, hupd⟩ := Option.map_eq_some'.mp h
    obtain ⟨r02, hr02, hupd2⟩ := Option.map_eq_some'.mp h2
    subst hupd; subst hupd2
    constructor
    · rw [next_updNeighbors, hr02, Option.map_some', uid_updNeighbors]
    · rw [prev_updNeighbors, if_neg (by omega)]
      have harith : i + 1 - 1 = i := by omega
      rw [harith, hr0, Option.map_some', uid_updNeighbors]
  · intro i r h h2
    rw [getElem?_pipeline] at h h2
    obtain ⟨r0, hr0, hupd⟩ := Option.map_eq_some'.mp h
    subst hupd
    have hnone : (assign_uids (tokenize S T) s)[i + 1]? = none :=
      Option.map_eq_none'.mp h2
    rw [next_updNeighbors, hnone, Option.map_none']

/-- Witness for C4: on the two-token stream of "ab" under the char
strategy with seed 7, the records at indices 0 and 1 mirror each other's
uid through next_uid and prev_uid. -/
theorem neighbor_consistency_witness :
    ∃ r r2, (pipeline Strategy.char [97, 98] 7)[0]? = some r ∧
      (pipeline Strategy.char [97, 98] 7)[0 + 1]? = some r2 ∧
      r.next_uid = some r2.uid ∧ r2.prev_uid = some r.uid := by
  have h1 : ((pipeline Strategy.char [97, 98] 7)[0]?).isSome = true := by decide
  have h2 : ((pipeline Strategy.char [97, 98] 7)[0 + 1]?).isSome = true := by
    decide
  exact ⟨_, _, (Option.some_get h1).symm, (Option.some_get h2).symm,
    (neighbor_consistency Strategy.char [97, 98] 7).2.1 0 _ _
      (Option.some_get h1).symm (Option.some_get h2).symm⟩

theorem mkuid_seed_ne (s1 s2 : Int) (t : Text) (i : Nat) (h : s1 ≠ s2) :
    mkuid s1 t i ≠ mkuid s2 t i := by
  unfold mkuid
  intro heq
  exact h (by omega)

/-- C7: seed sensitivity — for any strategy and text with a non-empty
tokenization, and any embedding bit, two distinct seeds disagree on the
uid assigned at some index (index 0 already differs). -/
theorem seed_sensitivity (S : Strategy) (T : Text) (bit : Bool)
    (s1 s2 : Int) (hne : s1 ≠ s2) (htok : tokenize S T ≠ []) :
    ∃ i : Nat, ((pipeline S T s1)[i]?).map TokenRec.uid ≠
      ((pipeline S T s2)[i]?).map TokenRec.uid := by
  refine ⟨0, ?_⟩
  obtain ⟨t0, ts, htoks⟩ := List.exists_cons_of_ne_nil htok
  have e1 : ((pipeline S T s1)[0]?).map TokenRec.uid = some (mkuid s1 t0 0) := by
    rw [getElem?_pipeline]
    unfold assign_uids
    rw [htoks]
    simp only [assign_uids_from, List.getElem?_cons_zero, Option.map_some']
    rfl
  have e2 : ((pipeline S T s2)[0]?).map TokenRec.uid = some (mkuid s2 t0 0) := by
    rw [getElem?_pipeline]
    unfold assign_uids
    rw [htoks]
    simp only [assign_uids_from, List.getElem?_cons_zero, Option.map_some']
    rfl
  rw [e1, e2]
  intro heq
  exact mkuid_seed_ne s1 s2 t0 0 hne (Option.some_injective Int heq)

/-- Witness for C7: the char strategy on the text "a" with seeds 0 and 1
yields differing uids at some index. -/
theorem seed_sensitivity_witness :
    (0 : Int) ≠ 1 ∧ tokenize Strategy.char [97] ≠ [] ∧
      ∃ i : Nat, ((pipeline Strategy.char [97] 0)[i]?).map TokenRec.uid ≠
        ((pipeline Strategy.char [97] 1)[i]?).map TokenRec.uid :=
  ⟨by decide, by decide,
    seed_sensitivity Strategy.char [97] false 0 1 (by decide) (by decide)⟩


/-- A Python value at the CLI boundary, as far as `SOMACLI.tokenize`
inspects its arguments: strings, ints, bools (a bool is an int in Python),
None, and any other object. -/
inductive PyVal where
  | str (s : String)
  | int (n : Int)
  | bool (b : Bool)
  | pynone
  | obj
deriving DecidableEq, Repr

/-- `isinstance(v, str)`. -/
def pyIsStr : PyVal → Bool
  | .str _ => true
  | _ => false

/-- `isinstance(v, int)`; Python's bool is a subclass of int. -/
def pyIsInt : PyVal → Bool
  | .int _ => true
  | .bool _ => true
  | _ => false

/-- Python truthiness of the modelled values (`if v:`); an arbitrary other
object is truthy. -/
def pyTruthy : PyVal → Bool
  | .str s => !(s == "")
  | .int n => !(n == 0)
  | .bool b => b
  | .pynone => false
  | .obj => true

/-- The integer carried by an int-like value (bools count 1/0). -/
def pyIntVal : PyVal → Int
  | .int n => n
  | .bool true => 1
  | _ => 0

/-- The string carried by a str value. -/
def pyStrVal : PyVal → String
  | .str s => s
  | _ => ""

/-- A Lean string as a codepoint list. -/
def strToText (s : String) : Text := s.data.map Char.toNat

/-- Control-flow outcome of `SOMACLI.tokenize` (`soma_cli.py` lines
64–232).  Every constructor except `raisedTypeError` corresponds to the
Python method returning `None`; `caught` is the catch-all handler at line
229 that prints a traceback and falls through to `None`. -/
inductive CliResult where
  | raisedTypeError (param : String)
  | noInput
  | srcMissing
  | emptyInput
  | caught
  | noStreams
  | unknownMethod
  | unknownFormat
  | ok
deriving DecidableEq, Repr

/-- True iff the outcome corresponds to the method returning `None`
(everything except a propagated TypeError). -/
def returnsNone : CliResult → Bool
  | .raisedTypeError _ => false
  | _ => true

/-- Outcome of the input-acquisition phase (`soma_cli.py` lines 101–149). -/
inductive InputRes where
  | raised (param : String)
  | noSource
  | missing
  | got (t : Text)
deriving DecidableEq, Repr

/-- Input acquisition of `SOMACLI.tokenize`: the first truthy source among
text, file, url is selected and type-checked; a missing file or failing
URL fetch is an error return; no truthy source is the
"Must provide --text, --file, or --url" error.  File reading is modelled
as found-or-missing since decoding uses `errors="replace"`. -/
def getInput (readFile fetchUrl : String → Option Text)
    (text file url : PyVal) : InputRes :=
  if pyTruthy text then
    match text with
    | .str s => .got (strToText s)
    | _ => .raised "text"
  else if pyTruthy file then
    match file with
    | .str s =>
      match readFile s with
      | some t => .got t
      | none => .missing
    | _ => .raised "file"
  else if pyTruthy url then
    match url with
    | .str s =>
      match fetchUrl s with
      | some t => .got t
      | none => .missing
    | _ => .raised "url"
  else .noSource

/-- The CLI's collaborators: the tokenization backend (which may raise),
the file reader, the URL fetcher, and the output writer (which may
raise). -/
structure CliEnv where
  build : Int → Text → Except String (List (String × List TokenRec))
  readFile : String → Option Text
  fetchUrl : String → Option Text
  writeOut : String → Except String Unit

/-- The codepoints Python's `str.strip()` removes (CPython's Unicode
whitespace set): 0x09–0x0D, 0x1C–0x1F, space, NEL 0x85, NBSP 0xA0, Ogham
space mark 0x1680, the spaces 0x2000–0x200A, line separator 0x2028,
paragraph separator 0x2029, narrow no-break space 0x202F, medium
mathematical space 0x205F, and ideographic space 0x3000. -/
def isPyStripCp (c : Nat) : Bool :=
  (9 ≤ c && c ≤ 13) || c == 32 || (28 ≤ c && c ≤ 31) || c == 133 ||
  c == 160 || c == 5760 || (8192 ≤ c && c ≤ 8202) || c == 8232 ||
  c == 8233 || c == 8239 || c == 8287 || c == 12288

/-- `SOMACLI.tokenize` (`soma_cli.py` lines 64–232): type checks on
method/seed/format first (raising TypeError), then input acquisition, then
— inside the big try whose `except Exception` prints a diagnostic and
returns None — the emptiness check (`len(input_text.strip()) == 0`, with
`str.strip`'s full Unicode whitespace set), the backend build, the
`method in streams` lookup, and output writing; a truthy non-str output
makes `os.path.dirname(output)` raise inside the try, hence `caught`. -/
def cliTokenizeBody (env : CliEnv) (method seed output fmt : PyVal)
    (input_text : Text) : CliResult :=
  if input_text.all (fun c => isPyStripCp c) then .emptyInput
  else
    match env.build (pyIntVal seed) input_text with
    | .error _ => .caught
    | .ok streams =>
      if streams.isEmpty then .noStreams
      else
        match streams.lookup (pyStrVal method) with
        | some _ =>
          if pyTruthy output then
            match output with
            | .str o =>
              if pyStrVal fmt = "json" then
                match env.writeOut o with
                | .ok _ => .ok
                | .error _ => .caught
              else if pyStrVal fmt = "txt" then
                match env.writeOut o with
                | .ok _ => .ok
                | .error _ => .caught
              else .unknownFormat
            | _ => .caught
          else .ok
        | none => .unknownMethod

/-- The type-check and input-acquisition wrapper around `cliTokenizeBody`,
completing the embedding of `SOMACLI.tokenize`. -/
def cliTokenize (env : CliEnv)
    (text file url method seed output fmt : PyVal) : CliResult :=
  if !pyIsStr method then .raisedTypeError "method"
  else if !pyIsInt seed then .raisedTypeError "seed"
  else if !pyIsStr fmt then .raisedTypeError "format"
  else
    match getInput env.readFile env.fetchUrl text file url with
    | .raised p => .raisedTypeError p
    | .noSource => .noInput
    | .missing => .srcMissing
    | .got input_text => cliTokenizeBody env method seed output fmt input_text

/-- Modelled from the spec: `TextTokenizer.build` — the full stream set,
one named TokenStream per strategy, keyed by the nine fixed method names
used by the CLI. -/
def buildStreams (seed : Int) (t : Text) : List (String × List TokenRec) :=
  [("space", pipeline .space t seed),
   ("word", pipeline .word t seed),
   ("char", pipeline .char t seed),
   ("grammar", pipeline .grammar t seed),
   ("subword", pipeline .subword_fixed t seed),
   ("subword_bpe", pipeline .subword_bpe t seed),
   ("subword_syllable", pipeline .subword_syllable t seed),
   ("subword_frequency", pipeline .subword_frequency t seed),
   ("byte", pipeline .byte t seed)]

/-- The nine fixed strategy names of the CLI (`soma_cli.py` info and the
stream keys of the backend). -/
def strategyNames : List String :=
  ["space", "word", "char", "grammar", "subword", "subword_bpe",
   "subword_syllable", "subword_frequency", "byte"]

theorem lookup_buildStreams_none (seed : Int) (t : Text) (m : String)
    (hm : m ∉ strategyNames) : (buildStreams seed t).lookup m = none := by
  simp only [strategyNames, List.mem_cons, List.not_mem_nil, or_false,
    not_or] at hm
  obtain ⟨h1, h2, h3, h4, h5, h6, h7, h8, h9⟩ := hm
  simp only [buildStreams, List.lookup, beq_eq_false_iff_ne.mpr h1,
    beq_eq_false_iff_ne.mpr h2, beq_eq_false_iff_ne.mpr h3,
    beq_eq_false_iff_ne.mpr h4, beq_eq_false_iff_ne.mpr h5,
    beq_eq_false_iff_ne.mpr h6, beq_eq_false_iff_ne.mpr h7,
    beq_eq_false_iff_ne.mpr h8, beq_eq_false_iff_ne.mpr h9]


/-- C5: empty input is valid in the core — tokenizing the empty text under
any strategy yields zero tokens and reconstructs to the empty text — while
the CLI orchestration layer, whose calling contract explicitly disallows
empty input, rejects it with an error return (and rejects whitespace-only
input through the `len(input_text.strip()) == 0` check). -/
theorem empty_input_behavior :
    (∀ S : Strategy, tokenize S [] = [] ∧ detokenize S (tokenize S []) = []) ∧
    (∀ (env : CliEnv) (m : String) (s : Int) (output : PyVal) (fmt : String),
      cliTokenize env (.str "") .pynone .pynone (.str m) (.int s) output
        (.str fmt) = .noInput) ∧
    (∀ (env : CliEnv) (m : String) (s : Int) (output : PyVal) (fmt : String),
      cliTokenize env (.str " ") .pynone .pynone (.str m) (.int s) output
        (.str fmt) = .emptyInput) := by
  refine ⟨?_, ?_, ?_⟩
  · intro S
    cases S with
    | space => exact ⟨by simp [tokenize, tokenize_space, groupByClass],
        by simp [tokenize, detokenize, tokenize_space, groupByClass]⟩
    | word => exact ⟨by simp [tokenize, tokenize_word],
        by simp [tokenize, detokenize, tokenize_word]⟩
    | char => exact ⟨rfl, rfl⟩
    | grammar => exact ⟨by simp [tokenize, tokenize_grammar],
        by simp [tokenize, detokenize, tokenize_grammar]⟩
    | subword_fixed => exact ⟨by simp [tokenize, tokenize_subword_fixed, chunksOf],
        by simp [tokenize, detokenize, tokenize_subword_fixed, chunksOf]⟩
    | subword_bpe => exact ⟨rfl, rfl⟩
    | subword_syllable =>
      exact ⟨by simp [tokenize, tokenize_subword_syllable, groupByClass],
        by simp [tokenize, detokenize, tokenize_subword_syllable, groupByClass]⟩
    | subword_frequency => exact ⟨rfl, rfl⟩
    | byte =>
      refine ⟨rfl, ?_⟩
      show utf8Decode [] = []
      exact utf8Decode_nil
  · intro env m s output fmt
    rfl
  · intro env m s output fmt
    rfl

/-- C6: an unknown strategy name is surfaced at the orchestration layer as
the unknown-method error outcome — an explicit error return, never an
exception raised inside a strategy function and never a silent success —
whatever the seed, text (nonempty after stripping), output and format
arguments are. -/
theorem unknown_strategy_surfaced (rf fu : String → Option Text)
    (w : String → Except String Unit) (m txt : String) (s : Int)
    (output : PyVal) (fmt : String)
    (hm : m ∉ strategyNames)
    (htxt : pyTruthy (.str txt) = true)
    (hws : (strToText txt).all (fun c => isPyStripCp c) = false) :
    cliTokenize ⟨fun sd tx => .ok (buildStreams sd tx), rf, fu, w⟩
      (.str txt) .pynone .pynone (.str m) (.int s) output (.str fmt) =
      .unknownMethod := by
  unfold cliTokenize
  simp only [pyIsStr, pyIsInt, Bool.not_true, Bool.false_eq_true, if_false]
  unfold getInput
  rw [htxt]
  simp only [if_true]
  unfold cliTokenizeBody
  rw [hws]
  simp only [Bool.false_eq_true, if_false]
  have hne : (buildStreams (pyIntVal (.int s)) (strToText txt)).isEmpty =
      false := rfl
  rw [hne]
  simp only [Bool.false_eq_true, if_false]
  rw [show pyStrVal (.str m) = m from rfl,
    lookup_buildStreams_none (pyIntVal (.int s)) (strToText txt) m hm]

/-- Witness for C6: requesting the method "wordz" on the text "abc" yields
the unknown-method outcome. -/
theorem unknown_strategy_surfaced_witness :
    "wordz" ∉ strategyNames ∧
      cliTokenize ⟨fun sd tx => .ok (buildStreams sd tx), fun _ => none,
          fun _ => none, fun _ => .ok ()⟩
        (.str "abc") .pynone .pynone (.str "wordz") (.int 42) .pynone
        (.str "json") = .unknownMethod :=
  ⟨by decide,
    unknown_strategy_surfaced (fun _ => none) (fun _ => none)
      (fun _ => .ok ()) "wordz" "abc" 42 .pynone "json" (by decide) (by decide)
      (by decide)⟩


/-- A concrete environment for closed CLI statements: the spec-modelled
backend, no files, no network, an output writer that succeeds. -/
def env0 : CliEnv :=
  ⟨fun sd tx => .ok (buildStreams sd tx), fun _ => none, fun _ => none,
    fun _ => .ok ()⟩

/-- Counterexample to C9 as stated: `text = 0` is a provided (non-None)
argument that is not a str, yet `SOMACLI.tokenize` does not raise
TypeError — `if text:` is false for the falsy value 0, so the call falls
through to the "Must provide --text, --file, or --url" error return. -/
theorem typecheck_counterexample :
    PyVal.int 0 ≠ PyVal.pynone ∧ pyIsStr (PyVal.int 0) = false ∧
      cliTokenize env0 (.int 0) .pynone .pynone (.str "word") (.int 42)
        .pynone (.str "json") = .noInput :=
  ⟨by decide, rfl, rfl⟩

/-- C9 amended: `SOMACLI.tokenize` raises TypeError for a non-str method,
then a non-int seed (a bool counts as an int), then a non-str format; for
the input source it type-checks only the selected argument — the first
truthy one of text, file, url — raising TypeError when that value is not a
str; falsy non-str source values are treated as absent, and when no source
is truthy the call returns the no-input error instead of raising. -/
theorem typecheck_amended (env : CliEnv)
    (text file url method seed output fmt : PyVal) :
    (pyIsStr method = false →
      cliTokenize env text file url method seed output fmt =
        .raisedTypeError "method") ∧
    (pyIsStr method = true → pyIsInt seed = false →
      cliTokenize env text file url method seed output fmt =
        .raisedTypeError "seed") ∧
    (pyIsStr method = true → pyIsInt seed = true → pyIsStr fmt = false →
      cliTokenize env text file url method seed output fmt =
        .raisedTypeError "format") ∧
    (pyIsStr method = true → pyIsInt seed = true → pyIsStr fmt = true →
      pyTruthy text = true → pyIsStr text = false →
      cliTokenize env text file url method seed output fmt =
        .raisedTypeError "text") ∧
    (pyIsStr method = true → pyIsInt seed = true → pyIsStr fmt = true →
      pyTruthy text = false → pyTruthy file = true → pyIsStr file = false →
      cliTokenize env text file url method seed output fmt =
        .raisedTypeError "file") ∧
    (pyIsStr method = true → pyIsInt seed = true → pyIsStr fmt = true →
      pyTruthy text = false → pyTruthy file = false → pyTruthy url = true →
      pyIsStr url = false →
      cliTokenize env text file url method seed output fmt =
        .raisedTypeError "url") ∧
    (pyIsStr method = true → pyIsInt seed = true → pyIsStr fmt = true →
      pyTruthy text = false → pyTruthy file = false → pyTruthy url = false →
      cliTokenize env text file url method seed output fmt = .noInput) := by
  refine ⟨?_, ?_, ?_, ?_, ?_, ?_, ?_⟩
  · intro h
    unfold cliTokenize
    rw [h]
    rfl
  · intro hm h
    unfold cliTokenize
    rw [hm, h]
    rfl
  · intro hm hs h
    unfold cliTokenize
    rw [hm, hs, h]
    rfl
  · intro hm hs hf ht hts
    unfold cliTokenize
    rw [hm, hs, hf]
    simp only [Bool.not_true, Bool.false_eq_true, if_false]
    unfold getInput
    rw [ht]
    simp only [if_true]
    cases text with
    | str s => simp [pyIsStr] at hts
    | int n => rfl
    | bool b => rfl
    | pynone => rfl
    | obj => rfl
  · intro hm hs hf ht hfi hfs
    unfold cliTokenize
    rw [hm, hs, hf]
    simp only [Bool.not_true, Bool.false_eq_true, if_false]
    unfold getInput
    rw [ht, hfi]
    simp only [Bool.false_eq_true, if_false, if_true]
    cases file with
    | str s => simp [pyIsStr] at hfs
    | int n => rfl
    | bool b => rfl
    | pynone => rfl
    | obj => rfl
  · intro hm hs hf ht hfi hu hus
    unfold cliTokenize
    rw [hm, hs, hf]
    simp only [Bool.not_true, Bool.false_eq_true, if_false]
    unfold getInput
    rw [ht, hfi, hu]
    simp only [Bool.false_eq_true, if_false, if_true]
    cases url with
    | str s => simp [pyIsStr] at hus
    | int n => rfl
    | bool b => rfl
    | pynone => rfl
    | obj => rfl
  · intro hm hs hf ht hfi hu
    unfold cliTokenize
    rw [hm, hs, hf]
    simp only [Bool.not_true, Bool.false_eq_true, if_false]
    unfold getInput
    rw [ht, hfi, hu]
    rfl

/-- Witness for C9 amended: a non-str method raises the method TypeError;
a truthy non-str text raises the text TypeError. -/
theorem typecheck_amended_witness :
    cliTokenize env0 (.str "hi") .pynone .pynone (.int 3) (.int 42) .pynone
        (.str "json") = .raisedTypeError "method" ∧
    cliTokenize env0 (.int 5) .pynone .pynone (.str "word") (.int 42) .pynone
        (.str "json") = .raisedTypeError "text" :=
  ⟨(typecheck_amended env0 (.str "hi") .pynone .pynone (.int 3) (.int 42)
      .pynone (.str "json")).1 rfl,
    (typecheck_amended env0 (.int 5) .pynone .pynone (.str "word") (.int 42)
      .pynone (.str "json")).2.2.2.1 rfl rfl rfl rfl rfl⟩

/-- C10: once the method/seed/format type checks pass and an input source
has been obtained, `SOMACLI.tokenize` never propagates an exception — for
every behavior of the tokenization backend and the output writer, every
outcome is a returns-None outcome (errors during tokenization or writing
are caught by the `except Exception` handler). -/
theorem tokenize_never_raises_after_input (env : CliEnv)
    (text file url method seed output fmt : PyVal) (tin : Text)
    (hm : pyIsStr method = true) (hs : pyIsInt seed = true)
    (hf : pyIsStr fmt = true)
    (hsrc : getInput env.readFile env.fetchUrl text file url = .got tin) :
    returnsNone (cliTokenize env text file url method seed output fmt) =
      true := by
  unfold cliTokenize
  rw [hm, hs, hf]
  simp only [Bool.not_true, Bool.false_eq_true, if_false]
  rw [hsrc]
  show returnsNone (cliTokenizeBody env method seed output fmt tin) = true
  unfold cliTokenizeBody
  repeat' first
  | rfl
  | split

/-- Witness for C10: with a backend that always raises, the method with a
valid text source still returns None (the exception is caught). -/
theorem tokenize_never_raises_after_input_witness :
    returnsNone (cliTokenize
      ⟨fun _ _ => .error "boom", fun _ => none, fun _ => none,
        fun _ => .ok ()⟩
      (.str "hi") .pynone .pynone (.str "word") (.int 42) .pynone
      (.str "json")) = true :=
  tokenize_never_raises_after_input
    ⟨fun _ _ => .error "boom", fun _ => none, fun _ => none, fun _ => .ok ()⟩
    (.str "hi") .pynone .pynone (.str "word") (.int 42) .pynone (.str "json")
    (strToText "hi") rfl rfl rfl rfl

end SanTok
